import Mathlib

/-!
Verification development for the LingoFlow translation app
(src/App.tsx, src/types.ts): a shallow embedding of its data model and
operations, followed by theorems about the behaviour of the offline
dictionary path, history handling, language cycling, localStorage
persistence and the audio playback scheduler.
-/

namespace LingoFlow

/-! ## Data model (src/types.ts) -/

/-- `TranslationRecord` from src/types.ts.  `timestamp` and `id` both come
from `Date.now()` in the app, a non-negative integer. -/
structure TranslationRecord where
  id : String
  originalText : String
  translatedText : String
  fromLang : String
  toLang : String
  timestamp : Nat
deriving Repr, DecidableEq

/-- `Language` from src/types.ts. -/
structure Language where
  code : String
  name : String
  flag : String
  voice : String
deriving Repr, DecidableEq

/-- `SUPPORTED_LANGUAGES` from src/types.ts (11 languages). -/
def SUPPORTED_LANGUAGES : List Language := [
  { code := "fr", name := "Français", flag := "🇫🇷", voice := "Kore" },
  { code := "en", name := "English", flag := "🇺🇸", voice := "Puck" },
  { code := "es", name := "Español", flag := "🇪🇸", voice := "Kore" },
  { code := "de", name := "Deutsch", flag := "🇩🇪", voice := "Fenrir" },
  { code := "it", name := "Italiano", flag := "🇮🇹", voice := "Kore" },
  { code := "ja", name := "日本語", flag := "🇯🇵", voice := "Kore" },
  { code := "zh", name := "中文", flag := "🇨🇳", voice := "Puck" },
  { code := "th", name := "Thaï", flag := "🇹🇭", voice := "Kore" },
  { code := "uk", name := "Ukrainien", flag := "🇺🇦", voice := "Kore" },
  { code := "cs", name := "Tchèque", flag := "🇨🇿", voice := "Puck" },
  { code := "pl", name := "Polonais", flag := "🇵🇱", voice := "Fenrir" } ]

/-! ## Offline dictionary (src/App.tsx, `OFFLINE_DICTIONARY`)

JavaScript objects with string keys are modelled as association lists;
`obj[k]` is `List.lookup k`. -/

/-- The `fr-en` table of `OFFLINE_DICTIONARY`. -/
def frEnTable : List (String × String) := [
  ("bonjour", "hello"),
  ("merci", "thank you"),
  ("s'il vous plaît", "please"),
  ("où est la gare ?", "where is the station?"),
  ("je suis perdu", "i am lost"),
  ("combien ça coûte ?", "how much does it cost?"),
  ("santé !", "cheers!"),
  ("oui", "yes"),
  ("non", "no"),
  ("pardon", "excuse me") ]

/-- The `en-fr` table of `OFFLINE_DICTIONARY`. -/
def enFrTable : List (String × String) := [
  ("hello", "bonjour"),
  ("thank you", "merci"),
  ("please", "s'il vous plaît"),
  ("where is the station?", "où est la gare ?"),
  ("i am lost", "je suis perdu"),
  ("how much does it cost?", "combien ça coûte ?"),
  ("cheers!", "santé !"),
  ("yes", "oui"),
  ("no", "non"),
  ("excuse me", "pardon") ]

/-- `OFFLINE_DICTIONARY` from src/App.tsx: it has exactly the two keys
`fr-en` and `en-fr`. -/
def OFFLINE_DICTIONARY : List (String × List (String × String)) :=
  [("fr-en", frEnTable), ("en-fr", enFrTable)]

/-- The string-valued view of the dictionary lookup — own properties of
the own tables only.  The full JavaScript semantics of the index
expression at line 103, members inherited from `Object.prototype`
included, is `offlineIndex` below; the two agree exactly on the own
string entries, which is what the table-inverse analysis (C8) is
about. -/
def offlineLookup (pair key : String) : Option String :=
  (OFFLINE_DICTIONARY.lookup pair).bind fun table => table.lookup key

/-- The own property names of `Object.prototype` (ECMA-262, Annex B
included), inherited by every object literal: indexing a dictionary
object with one of these names yields a truthy non-string function or
object instead of `undefined`. -/
def objectProtoMembers : List String :=
  ["constructor", "hasOwnProperty", "isPrototypeOf", "propertyIsEnumerable",
   "toLocaleString", "toString", "valueOf", "__proto__", "__defineGetter__",
   "__defineSetter__", "__lookupGetter__", "__lookupSetter__"]

/-- A JavaScript value as produced by the dictionary indexing of
line 103: `undefined`, a string, or a member inherited from
`Object.prototype` (a function or object — truthy, not a string). -/
inductive JsValue where
  | undef : JsValue
  | str : String → JsValue
  | protoMember : String → JsValue
deriving Repr, DecidableEq

/-- JavaScript truthiness of such a value: `undefined` and the empty
string are falsy, every other string and every inherited member is
truthy. -/
def jsTruthy : JsValue → Bool
  | JsValue.undef => false
  | JsValue.str s => s ≠ ""
  | JsValue.protoMember _ => true

/-- `table[key]` on one dictionary table (a plain object literal): the
own entry when present, otherwise the member inherited from
`Object.prototype`, otherwise `undefined`. -/
def tableIndex (table : List (String × String)) (key : String) : JsValue :=
  match table.lookup key with
  | some v => JsValue.str v
  | none =>
    if objectProtoMembers.contains key then JsValue.protoMember key
    else JsValue.undef

/-- `OFFLINE_DICTIONARY[pair]?.[key]` from src/App.tsx line 103,
prototype chain included.  When `pair` is an own key, the named table is
indexed; when `pair` only names an inherited member, the outer access
yields that non-table function or object, and indexing it is modeled as
the member itself — never a translation string, and unreachable from
`handleOfflineTranslate`, whose pair always contains a `-` while no
`Object.prototype` member name does (`pair_not_proto_mem`); otherwise
the outer access is `undefined` and `?.` short-circuits the whole
expression to `undefined`. -/
def offlineIndex (pair key : String) : JsValue :=
  match OFFLINE_DICTIONARY.lookup pair with
  | some table => tableIndex table key
  | none =>
    if objectProtoMembers.contains pair then JsValue.protoMember pair
    else JsValue.undef

/-! ## String normalisation (`text.toLowerCase().trim()`)

`trim` strips exactly the ECMA-262 WhiteSpace and LineTerminator code
points.  `toLowerCase` applies the Unicode lowercase mapping; the model
carries the mappings of every code point whose lowercase image can reach
a character of a dictionary key or of an `Object.prototype` member name,
and fixes the rest — see `jsLowerCode`. -/

/-- The code-point mapping of JavaScript `toLowerCase`: ASCII `A`-`Z`,
the Latin-1 uppercase letters `À`-`Þ` (U+00C0-U+00DE, excluding the
multiplication sign U+00D7) — which cover the accented letters
`î ù é û ç` of the French dictionary keys — and the Kelvin and Angstrom
signs U+212A/U+212B, whose lowercase images are Latin letters `k`/`å`.
Every other code point is left fixed.  These are all of the code points
whose Unicode lowercase image can be a character of a dictionary key or
of an inherited member name, and key characters themselves are fixed
points of `toLowerCase`; so an input whose real lowercased, trimmed form
reaches a dictionary key or member name normalizes identically here, and
on every other input both the program and the model miss and build the
same fallback from the raw (unnormalized) text. -/
def jsLowerCode (n : Nat) : Nat :=
  if 65 ≤ n ∧ n ≤ 90 then n + 32
  else if 192 ≤ n ∧ n ≤ 222 ∧ n ≠ 215 then n + 32
  else if n = 8490 then 107
  else if n = 8491 then 229
  else n

/-- One character of JavaScript `toLowerCase`. -/
def jsToLowerChar (c : Char) : Char :=
  if jsLowerCode c.toNat = c.toNat then c else Char.ofNat (jsLowerCode c.toNat)

/-- JavaScript `String.prototype.toLowerCase`, character-wise. -/
def jsToLower (s : String) : String :=
  String.mk (s.data.map jsToLowerChar)

/-- The code points stripped by JavaScript `trim`: the ECMA-262
WhiteSpace and LineTerminator sets — TAB, LF, VT, FF, CR, SP, NBSP,
U+1680, U+2000-U+200A, U+2028, U+2029, U+202F, U+205F, U+3000 and
U+FEFF. -/
def isWsCode (n : Nat) : Bool :=
  (9 ≤ n ∧ n ≤ 13) ∨ n = 32 ∨ n = 160 ∨ n = 5760 ∨
  (8192 ≤ n ∧ n ≤ 8202) ∨ n = 8232 ∨ n = 8233 ∨ n = 8239 ∨ n = 8287 ∨
  n = 12288 ∨ n = 65279

/-- Whitespace as removed by JavaScript `trim`. -/
def isJsWhitespace (c : Char) : Bool := isWsCode c.toNat

/-- Strip leading and trailing whitespace from a character list. -/
def trimList (l : List Char) : List Char :=
  ((l.dropWhile isJsWhitespace).reverse.dropWhile isJsWhitespace).reverse

/-- JavaScript `String.prototype.trim`. -/
def jsTrim (s : String) : String :=
  String.mk (trimList s.data)

/-- `text.toLowerCase().trim()` from src/App.tsx line 102. -/
def normalizeText (text : String) : String :=
  jsTrim (jsToLower text)

/-! ## `handleOfflineTranslate` (src/App.tsx lines 100-126) -/

/-- The fallback string built at src/App.tsx line 106. -/
def offlineFallback (text : String) : String :=
  "[Offline] \"" ++ text ++ "\""

/-- Lines 103-107: `let translated = OFFLINE_DICTIONARY[pair]?.[text];
if (!translated) translated = fallback` — the looked-up value when
truthy, the fallback string otherwise. -/
def resolveTranslated (text : String) (looked : JsValue) : JsValue :=
  if jsTruthy looked then looked else JsValue.str (offlineFallback text)

/-- The types.ts `translatedText : string` view of a stored value: exact
whenever the value is a string, which is everywhere except an
inherited-member hit — there the program stores the non-string member
itself in the record, breaking its own `TranslationRecord` interface
(see `c2_counterexample`), and no faithful `String` exists. -/
def jsValueStringView : JsValue → String
  | JsValue.str s => s
  | _ => ""

/-- The outcome of one `handleOfflineTranslate` call: the displayed
transcription pair, the history record it builds and the new history.
`transcriptionModel` is the JavaScript value of `translated` — the value
displayed and also stored in the new record's `translatedText`; `record`
is the types.ts-typed view of that record, exact whenever `translated`
is a string. -/
structure OfflineOutcome where
  transcriptionUser : String
  transcriptionModel : JsValue
  record : TranslationRecord
  newHistory : List TranslationRecord
deriving Repr, DecidableEq

/-- `setHistory(h => [newRecord, ...h].slice(0, 50))` from
src/App.tsx lines 125 and 230. -/
def pushHistory (r : TranslationRecord) (h : List TranslationRecord) :
    List TranslationRecord :=
  (r :: h).take 50

/-- `handleOfflineTranslate` from src/App.tsx lines 100-126.  `now` stands
for `Date.now()`. -/
def handleOfflineTranslate (fromCode toCode : String) (now : Nat)
    (text : String) (history : List TranslationRecord) : OfflineOutcome :=
  let pair := fromCode ++ "-" ++ toCode
  let normalizedText := normalizeText text
  let translated := resolveTranslated text (offlineIndex pair normalizedText)
  let newRecord : TranslationRecord :=
    { id := toString now
      originalText := text
      translatedText := jsValueStringView translated
      fromLang := fromCode
      toLang := toCode
      timestamp := now }
  { transcriptionUser := text
    transcriptionModel := translated
    record := newRecord
    newHistory := pushHistory newRecord history }

/-- The history update of the online `turnComplete` handler
(src/App.tsx lines 219-234): a record is appended only when both the
user and the model transcription are truthy (non-empty). -/
def handleTurnComplete (fromCode toCode : String) (now : Nat)
    (user model : String) (history : List TranslationRecord) :
    List TranslationRecord :=
  if user ≠ "" ∧ model ≠ "" then
    pushHistory
      { id := toString now
        originalText := user
        translatedText := model
        fromLang := fromCode
        toLang := toCode
        timestamp := now } history
  else history

/-! ## `startSession` branch structure (src/App.tsx lines 162-267)

`startSession` is modelled by the sequence of externally visible actions
it takes on each branch. -/

/-- The actions `startSession` can take, in order of appearance in the
source. -/
inductive SessionEvent where
  | startOfflineListeningEv
  | alertMissingApiKey
  | createGenAIClient
  | createAudioContexts
  | getUserMediaMic
  | liveConnect
deriving Repr, DecidableEq

/-- `isActuallyOffline = !isOnline || manualOffline` from
src/App.tsx line 70. -/
def isActuallyOffline (isOnline manualOffline : Bool) : Bool :=
  !isOnline || manualOffline

/-- The action trace of `startSession` (src/App.tsx lines 162-267):
offline guard first, then the API-key guard, then the cloud pipeline. -/
def startSessionEvents (isOnline manualOffline hasApiKey : Bool) :
    List SessionEvent :=
  if isActuallyOffline isOnline manualOffline then
    [SessionEvent.startOfflineListeningEv]
  else if !hasApiKey then
    [SessionEvent.alertMissingApiKey]
  else
    [SessionEvent.createGenAIClient, SessionEvent.createAudioContexts,
     SessionEvent.getUserMediaMic, SessionEvent.liveConnect]

/-! ## Audio playback scheduling (src/App.tsx lines 236-250)

Times and durations are modelled as rationals.  A chunk arrival carries
the audio context's `currentTime` and the decoded buffer's `duration`;
the handler runs
`nextStartTime = max(nextStartTime, currentTime);
 source.start(nextStartTime); nextStartTime += duration`. -/

/-- One chunk arrival (lines 239, 247, 248): from the stored
`nextStartTime` and the chunk's `(currentTime, duration)`, the scheduled
start time and the updated `nextStartTime`. -/
def scheduleChunk (next : ℚ) (chunk : ℚ × ℚ) : ℚ × ℚ :=
  let s := max next chunk.1
  (s, s + chunk.2)

/-- The scheduled `(startTime, duration)` of each chunk of a run of
arrivals, threading `nextStartTime` through `scheduleChunk`. -/
def scheduleChunks (next : ℚ) : List (ℚ × ℚ) → List (ℚ × ℚ)
  | [] => []
  | chunk :: rest =>
    ((scheduleChunk next chunk).1, chunk.2)
      :: scheduleChunks (scheduleChunk next chunk).2 rest

/-- The value of `nextStartTime` after a run of chunk arrivals. -/
def nextStartAfter (next : ℚ) : List (ℚ × ℚ) → ℚ
  | [] => next
  | chunk :: rest => nextStartAfter (scheduleChunk next chunk).2 rest

/-- `stopAllAudio` (src/App.tsx lines 91-97) resets `nextStartTime`
to 0. -/
def stopAllAudio_nextStart : ℚ := 0

/-! ## Language cycling (src/App.tsx lines 333 and 340)

`setFromLang(SUPPORTED_LANGUAGES[(SUPPORTED_LANGUAGES.indexOf(fromLang) + 1)
% SUPPORTED_LANGUAGES.length])`, guarded by `!isListening &&`; the `toLang`
button is identical. -/

/-- One tap of a language selector button. -/
def cycleLanguage (isListening : Bool) (l : Language) : Language :=
  if isListening then l
  else
    SUPPORTED_LANGUAGES.getD
      ((SUPPORTED_LANGUAGES.indexOf l + 1) % SUPPORTED_LANGUAGES.length) l

/-! ## History persistence (src/App.tsx lines 78-79 and 87-89)

`JSON.stringify(history)` and `JSON.parse(saved)` are modelled over
`List Char`.  The serializer follows `JSON.stringify` on a list of
`TranslationRecord`s: object keys in insertion order, strings quoted with
`"`, `\` and control characters escaped (`\b \t \n \f \r`, `\u00XX`
otherwise), `timestamp` as a decimal numeral.  The parser is
`JSON.parse` restricted to this grammar — the exact shape `stringify`
produces for these values. -/

/-- The decimal digit character for `n < 10`. -/
def decDigit (n : Nat) : Char := Char.ofNat (48 + n)

/-- The lowercase hexadecimal digit character for `n < 16`. -/
def hexDigit (n : Nat) : Char :=
  if n < 10 then Char.ofNat (48 + n) else Char.ofNat (87 + n)

/-- The decimal numeral of `n`, most significant digit first; `fuel`
bounds the recursion depth and any `fuel` with `n < 10 ^ fuel` is
enough. -/
def natToCharsAux : Nat → Nat → List Char
  | 0, _ => []
  | fuel + 1, n =>
    if n < 10 then [decDigit n]
    else natToCharsAux fuel (n / 10) ++ [decDigit (n % 10)]

/-- The decimal numeral of `n`, most significant digit first. -/
def natToChars (n : Nat) : List Char := natToCharsAux (n + 1) n

/-- `JSON.stringify`'s escaping of one string character. -/
def escapeChar (c : Char) : List Char :=
  if c = '"' then ['\\', '"']
  else if c = '\\' then ['\\', '\\']
  else if c.toNat = 8 then ['\\', 'b']
  else if c.toNat = 9 then ['\\', 't']
  else if c.toNat = 10 then ['\\', 'n']
  else if c.toNat = 12 then ['\\', 'f']
  else if c.toNat = 13 then ['\\', 'r']
  else if c.toNat < 32 then
    ['\\', 'u', '0', '0', hexDigit (c.toNat / 16), hexDigit (c.toNat % 16)]
  else [c]

/-- The escaped body of a JSON string literal. -/
def encStringChars (l : List Char) : List Char := l.flatMap escapeChar

/-- A JSON string literal. -/
def encString (s : String) : List Char :=
  '"' :: encStringChars s.data ++ ['"']

/-- An opening object brace, U+007B. -/
def lbrace : Char := Char.ofNat 123

/-- A closing object brace, U+007D. -/
def rbrace : Char := Char.ofNat 125

/-- One `"key":value` member of a JSON object. -/
def encField (key : String) (valChars : List Char) : List Char :=
  encString key ++ ':' :: valChars

/-- `JSON.stringify` of one `TranslationRecord`, keys in insertion
order. -/
def encRecord (r : TranslationRecord) : List Char :=
  lbrace :: (encField "id" (encString r.id) ++ ',' ::
    encField "originalText" (encString r.originalText) ++ ',' ::
    encField "translatedText" (encString r.translatedText) ++ ',' ::
    encField "fromLang" (encString r.fromLang) ++ ',' ::
    encField "toLang" (encString r.toLang) ++ ',' ::
    encField "timestamp" (natToChars r.timestamp)) ++ [rbrace]

/-- Comma-separated concatenation of JSON array elements. -/
def joinComma : List (List Char) → List Char
  | [] => []
  | [x] => x
  | x :: xs => x ++ ',' :: joinComma xs

/-- `JSON.stringify` of the history list. -/
def encHistory (l : List TranslationRecord) : List Char :=
  '[' :: joinComma (l.map encRecord) ++ [']']

/-- The value of a hexadecimal digit character. -/
def hexVal (c : Char) : Option Nat :=
  if 48 ≤ c.toNat ∧ c.toNat ≤ 57 then some (c.toNat - 48)
  else if 97 ≤ c.toNat ∧ c.toNat ≤ 102 then some (c.toNat - 87)
  else none

/-- Parse the body of a JSON string literal up to its closing quote,
undoing the escapes of `escapeChar`; returns the decoded characters and
the rest of the input. -/
def parseStringBody : List Char → Option (List Char × List Char)
  | [] => none
  | c :: cs =>
    if c = '"' then some ([], cs)
    else if c = '\\' then
      match cs with
      | [] => none
      | e :: cs2 =>
        if e = '"' then (parseStringBody cs2).map fun p => ('"' :: p.1, p.2)
        else if e = '\\' then (parseStringBody cs2).map fun p => ('\\' :: p.1, p.2)
        else if e = 'b' then (parseStringBody cs2).map fun p => (Char.ofNat 8 :: p.1, p.2)
        else if e = 't' then (parseStringBody cs2).map fun p => (Char.ofNat 9 :: p.1, p.2)
        else if e = 'n' then (parseStringBody cs2).map fun p => (Char.ofNat 10 :: p.1, p.2)
        else if e = 'f' then (parseStringBody cs2).map fun p => (Char.ofNat 12 :: p.1, p.2)
        else if e = 'r' then (parseStringBody cs2).map fun p => (Char.ofNat 13 :: p.1, p.2)
        else if e = 'u' then
          match cs2 with
          | h1 :: h2 :: h3 :: h4 :: cs3 =>
            match hexVal h1, hexVal h2, hexVal h3, hexVal h4 with
            | some v1, some v2, some v3, some v4 =>
              (parseStringBody cs3).map fun p =>
                (Char.ofNat (((v1 * 16 + v2) * 16 + v3) * 16 + v4) :: p.1, p.2)
            | _, _, _, _ => none
          | _ => none
        else none
    else (parseStringBody cs).map fun p => (c :: p.1, p.2)

/-- Parse a JSON string literal. -/
def parseString (cs : List Char) : Option (String × List Char) :=
  match cs with
  | [] => none
  | c :: rest =>
    if c = '"' then (parseStringBody rest).map fun p => (String.mk p.1, p.2)
    else none

/-- The value of a list of decimal digit characters. -/
def charsToNat (l : List Char) : Nat :=
  l.foldl (fun acc c => acc * 10 + (c.toNat - 48)) 0

/-- Parse a decimal numeral greedily. -/
def parseNatChars (cs : List Char) : Option (Nat × List Char) :=
  if (cs.takeWhile Char.isDigit).isEmpty then none
  else some (charsToNat (cs.takeWhile Char.isDigit), cs.dropWhile Char.isDigit)

/-- Consume an exact sequence of characters. -/
def parseExact : List Char → List Char → Option (List Char)
  | [], cs => some cs
  | _ :: _, [] => none
  | p :: ps, c :: cs => if c = p then parseExact ps cs else none

/-- Consume the `"key":` part of an object member. -/
def parseField (key : String) (cs : List Char) : Option (List Char) :=
  parseExact (encString key ++ [':']) cs

/-- Consume `"key":` and a string value. -/
def parseMemberStr (key : String) (cs : List Char) : Option (String × List Char) :=
  (parseField key cs).bind parseString

/-- Consume `,"key":` and a string value. -/
def parseCommaMemberStr (key : String) (cs : List Char) :
    Option (String × List Char) :=
  (parseExact [','] cs).bind (parseMemberStr key)

/-- Consume `,"key":` and a numeral value. -/
def parseCommaMemberNum (key : String) (cs : List Char) :
    Option (Nat × List Char) :=
  (parseExact [','] cs).bind fun cs2 =>
    (parseField key cs2).bind parseNatChars

/-- Parse one serialized `TranslationRecord` object. -/
def parseRecord (cs : List Char) : Option (TranslationRecord × List Char) :=
  (parseExact [lbrace] cs).bind fun cs1 =>
  (parseMemberStr "id" cs1).bind fun p1 =>
  (parseCommaMemberStr "originalText" p1.2).bind fun p2 =>
  (parseCommaMemberStr "translatedText" p2.2).bind fun p3 =>
  (parseCommaMemberStr "fromLang" p3.2).bind fun p4 =>
  (parseCommaMemberStr "toLang" p4.2).bind fun p5 =>
  (parseCommaMemberNum "timestamp" p5.2).bind fun p6 =>
  (parseExact [rbrace] p6.2).bind fun cs2 =>
  some ({ id := p1.1, originalText := p2.1, translatedText := p3.1,
          fromLang := p4.1, toLang := p5.1, timestamp := p6.1 }, cs2)

/-- Parse the comma-separated records of a non-empty array up to the
closing bracket; `fuel` bounds the number of records. -/
def parseRecordsAux : Nat → List Char → Option (List TranslationRecord × List Char)
  | 0, _ => none
  | fuel + 1, cs =>
    (parseRecord cs).bind fun p =>
      match p.2 with
      | [] => none
      | c :: cs3 =>
        if c = ',' then (parseRecordsAux fuel cs3).map fun q => (p.1 :: q.1, q.2)
        else if c = ']' then some ([p.1], cs3)
        else none

/-- Parse a serialized history list, requiring the whole input to be
consumed. -/
def parseHistory (cs : List Char) : Option (List TranslationRecord) :=
  match cs with
  | [] => none
  | c :: rest =>
    if c = '[' then
      match rest with
      | [] => none
      | d :: rest2 =>
        if d = ']' then (if rest2.isEmpty then some [] else none)
        else
          match parseRecordsAux rest.length rest with
          | some (rs, []) => some rs
          | _ => none
    else none

/-! ## The localStorage effects (src/App.tsx lines 78-79, 87-89) -/

/-- `localStorage`, as a partial map from keys to strings. -/
def Store : Type := String → Option String

/-- `localStorage.setItem`. -/
def setItem (st : Store) (k v : String) : Store :=
  fun k2 => if k2 = k then some v else st k2

/-- `localStorage.getItem`. -/
def getItem (st : Store) (k : String) : Option String := st k

/-- The storage key of the history list. -/
def historyKey : String := "lingoflow_history"

/-- The persist effect (lines 87-89):
`localStorage.setItem('lingoflow_history', JSON.stringify(history))`. -/
def persistHistory (st : Store) (h : List TranslationRecord) : Store :=
  setItem st historyKey (String.mk (encHistory h))

/-- The startup load effect (lines 78-79):
`const saved = localStorage.getItem('lingoflow_history');
if (saved) setHistory(JSON.parse(saved))` — `none` when nothing is
restored (no entry, or the falsy empty string). -/
def loadHistory (st : Store) : Option (List TranslationRecord) :=
  match getItem st historyKey with
  | none => none
  | some s => if s = "" then none else parseHistory s.data

/-! # Theorems -/

/-- C1 counterexample: `en` and `es` are distinct supported languages,
yet `OFFLINE_DICTIONARY` has no entry for the key `en-es`. -/
theorem c1_counterexample :
    "en" ∈ SUPPORTED_LANGUAGES.map Language.code ∧
    "es" ∈ SUPPORTED_LANGUAGES.map Language.code ∧
    "en" ≠ "es" ∧
    OFFLINE_DICTIONARY.lookup ("en" ++ "-" ++ "es") = none := by
  decide

/-- C1 (amended): `OFFLINE_DICTIONARY` has entries for exactly the two
ordered pairs `fr-en` and `en-fr` of the 11 supported languages, each
mapping exactly ten phrases; every other ordered pair of supported
languages has no entry. -/
theorem c1_dictionary_pairs :
    SUPPORTED_LANGUAGES.length = 11 ∧
    OFFLINE_DICTIONARY.map Prod.fst = ["fr-en", "en-fr"] ∧
    (∀ e ∈ OFFLINE_DICTIONARY, e.2.length = 10) ∧
    (∀ a ∈ SUPPORTED_LANGUAGES, ∀ b ∈ SUPPORTED_LANGUAGES,
      a.code ++ "-" ++ b.code ≠ "fr-en" → a.code ++ "-" ++ b.code ≠ "en-fr" →
      OFFLINE_DICTIONARY.lookup (a.code ++ "-" ++ b.code) = none) := by
  decide

/-- C2 counterexample: with the pair `fr-en`, the input `"constructor"`
normalizes to itself and is not a key of the `fr-en` table, yet the
index expression of line 103 finds the member inherited from
`Object.prototype` — a truthy non-string — so `!translated` is false and
the displayed translated value is not the fallback string. -/
theorem c2_counterexample :
    normalizeText "constructor" = "constructor" ∧
    frEnTable.lookup "constructor" = none ∧
    (handleOfflineTranslate "fr" "en" 0 "constructor" []).transcriptionModel
        = JsValue.protoMember "constructor" ∧
    (handleOfflineTranslate "fr" "en" 0 "constructor" []).transcriptionModel
        ≠ JsValue.str (offlineFallback "constructor") := by
  decide

/-- C2 (amended): when the line-103 index of the lowercased and trimmed
text for the current language pair is `undefined` — the normalized text
is neither an own key of that pair's table nor the name of a member
inherited from `Object.prototype`, including the case that the pair has
no dictionary at all — `handleOfflineTranslate` produces the fallback
string both as the displayed model transcription and as the
`translatedText` of the record it prepends to the history. -/
theorem c2_offline_fallback (fromCode toCode : String) (now : Nat)
    (text : String) (history : List TranslationRecord)
    (hmiss : offlineIndex (fromCode ++ "-" ++ toCode) (normalizeText text)
        = JsValue.undef) :
    (handleOfflineTranslate fromCode toCode now text history).transcriptionModel
        = JsValue.str (offlineFallback text) ∧
    (handleOfflineTranslate fromCode toCode now text history).record.translatedText
        = offlineFallback text ∧
    (handleOfflineTranslate fromCode toCode now text history).newHistory.head?
        = some (handleOfflineTranslate fromCode toCode now text history).record := by
  unfold handleOfflineTranslate
  simp [hmiss, resolveTranslated, jsTruthy, jsValueStringView, pushHistory,
    List.take_succ_cons]

/-- C2 witness at the concrete miss `fr-en : "Hello"`. -/
theorem c2_offline_fallback_witness :
    offlineIndex ("fr" ++ "-" ++ "en") (normalizeText "Hello") = JsValue.undef ∧
    ((handleOfflineTranslate "fr" "en" 0 "Hello" []).transcriptionModel
        = JsValue.str (offlineFallback "Hello") ∧
     (handleOfflineTranslate "fr" "en" 0 "Hello" []).record.translatedText
        = offlineFallback "Hello" ∧
     (handleOfflineTranslate "fr" "en" 0 "Hello" []).newHistory.head?
        = some (handleOfflineTranslate "fr" "en" 0 "Hello" []).record) :=
  ⟨by decide, c2_offline_fallback "fr" "en" 0 "Hello" [] (by decide)⟩

/-- C4: when the device is offline or manual offline mode is on,
`startSession` only starts offline listening: it creates no GoogleGenAI
client, opens no live session and requests no microphone media. -/
theorem c4_offline_guard (isOnline manualOffline hasApiKey : Bool)
    (h : isOnline = false ∨ manualOffline = true) :
    startSessionEvents isOnline manualOffline hasApiKey
        = [SessionEvent.startOfflineListeningEv] ∧
    SessionEvent.createGenAIClient ∉ startSessionEvents isOnline manualOffline hasApiKey ∧
    SessionEvent.getUserMediaMic ∉ startSessionEvents isOnline manualOffline hasApiKey ∧
    SessionEvent.liveConnect ∉ startSessionEvents isOnline manualOffline hasApiKey := by
  have hoff : isActuallyOffline isOnline manualOffline = true := by
    rcases h with h | h <;> simp [isActuallyOffline, h]
  refine ⟨?_, ?_, ?_, ?_⟩ <;> simp [startSessionEvents, hoff]

/-- C4 witness: navigator offline, manual mode off, API key present. -/
theorem c4_offline_guard_witness :
    (false = false ∨ false = true) ∧
    (startSessionEvents false false true
        = [SessionEvent.startOfflineListeningEv] ∧
     SessionEvent.createGenAIClient ∉ startSessionEvents false false true ∧
     SessionEvent.getUserMediaMic ∉ startSessionEvents false false true ∧
     SessionEvent.liveConnect ∉ startSessionEvents false false true) :=
  ⟨Or.inl rfl, c4_offline_guard false false true (Or.inl rfl)⟩

/-- C5: tapping a selector while not listening advances the selection to
the next index modulo `SUPPORTED_LANGUAGES.length`; tapping it that many
times returns to the start, and tapping while listening changes
nothing. -/
theorem c5_language_cycling (l : Language) (hl : l ∈ SUPPORTED_LANGUAGES) :
    SUPPORTED_LANGUAGES.indexOf (cycleLanguage false l)
        = (SUPPORTED_LANGUAGES.indexOf l + 1) % SUPPORTED_LANGUAGES.length ∧
    (cycleLanguage false)^[SUPPORTED_LANGUAGES.length] l = l ∧
    cycleLanguage true l = l := by
  refine ⟨?_, ?_, by simp [cycleLanguage]⟩ <;> fin_cases hl <;> decide

/-- C5 witness at the first supported language. -/
theorem c5_language_cycling_witness :
    (Language.mk "fr" "Français" "🇫🇷" "Kore") ∈ SUPPORTED_LANGUAGES ∧
    (SUPPORTED_LANGUAGES.indexOf
        (cycleLanguage false (Language.mk "fr" "Français" "🇫🇷" "Kore"))
        = (SUPPORTED_LANGUAGES.indexOf (Language.mk "fr" "Français" "🇫🇷" "Kore") + 1)
            % SUPPORTED_LANGUAGES.length ∧
     (cycleLanguage false)^[SUPPORTED_LANGUAGES.length]
        (Language.mk "fr" "Français" "🇫🇷" "Kore")
        = Language.mk "fr" "Français" "🇫🇷" "Kore" ∧
     cycleLanguage true (Language.mk "fr" "Français" "🇫🇷" "Kore")
        = Language.mk "fr" "Français" "🇫🇷" "Kore") :=
  ⟨by decide, c5_language_cycling (Language.mk "fr" "Français" "🇫🇷" "Kore") (by decide)⟩

/-- C7: both history-append sites go through `pushHistory`, which
prepends the new record and truncates to 50 entries: the result has
length at most 50 and the new record first. -/
theorem c7_history_bound (fromCode toCode : String) (now : Nat)
    (text user model : String) (r : TranslationRecord)
    (h : List TranslationRecord) (hu : user ≠ "") (hm : model ≠ "") :
    (pushHistory r h).length ≤ 50 ∧
    (pushHistory r h).head? = some r ∧
    (handleOfflineTranslate fromCode toCode now text h).newHistory
        = pushHistory (handleOfflineTranslate fromCode toCode now text h).record h ∧
    handleTurnComplete fromCode toCode now user model h
        = pushHistory
            { id := toString now, originalText := user, translatedText := model,
              fromLang := fromCode, toLang := toCode, timestamp := now } h := by
  refine ⟨?_, ?_, rfl, by simp [handleTurnComplete, hu, hm]⟩
  · simp [pushHistory, List.length_take]
  · simp [pushHistory, List.take_succ_cons]

/-- C7 witness at a concrete record and history. -/
theorem c7_history_bound_witness :
    ("u" : String) ≠ "" ∧ ("m" : String) ≠ "" ∧
    ((pushHistory (TranslationRecord.mk "1" "a" "b" "fr" "en" 1) []).length ≤ 50 ∧
     (pushHistory (TranslationRecord.mk "1" "a" "b" "fr" "en" 1) []).head?
        = some (TranslationRecord.mk "1" "a" "b" "fr" "en" 1) ∧
     (handleOfflineTranslate "fr" "en" 0 "t" []).newHistory
        = pushHistory (handleOfflineTranslate "fr" "en" 0 "t" []).record [] ∧
     handleTurnComplete "fr" "en" 0 "u" "m" []
        = pushHistory
            { id := toString 0, originalText := "u", translatedText := "m",
              fromLang := "fr", toLang := "en", timestamp := 0 } []) :=
  ⟨by decide, by decide,
   c7_history_bound "fr" "en" 0 "t" "u" "m"
     (TranslationRecord.mk "1" "a" "b" "fr" "en" 1) [] (by decide) (by decide)⟩

/-! ### Association-list lookup and membership -/

theorem lookup_eq_some_iff_mem (l : List (String × String))
    (hnd : (l.map Prod.fst).Nodup) (p q : String) :
    l.lookup p = some q ↔ (p, q) ∈ l := by
  induction l with
  | nil => simp [List.lookup]
  | cons e t ih =>
    obtain ⟨k, v⟩ := e
    simp only [List.map_cons, List.nodup_cons] at hnd
    obtain ⟨hk, hnd2⟩ := hnd
    by_cases h : p = k
    · subst h
      simp only [List.lookup_cons, beq_self_eq_true, List.mem_cons]
      constructor
      · intro h2
        exact Or.inl (by cases h2; rfl)
      · rintro (h2 | h2)
        · cases h2; rfl
        · exact absurd (List.mem_map_of_mem Prod.fst h2) hk
    · have hb : (p == k) = false := beq_eq_false_iff_ne.mpr h
      simp only [List.lookup_cons, hb, List.mem_cons, ih hnd2]
      constructor
      · exact Or.inr
      · rintro (h2 | h2)
        · exact absurd (congrArg Prod.fst h2) h
        · exact h2

/-- C8: the two offline tables are mutual inverses — `fr-en` sends `p`
to `q` exactly when `en-fr` sends `q` back to `p` — and they are the
dictionaries the app looks up for those pairs, so a known phrase
round-trips. -/
theorem c8_tables_inverse (p q : String) :
    (offlineLookup "fr-en" p = some q ↔ offlineLookup "en-fr" q = some p) ∧
    OFFLINE_DICTIONARY.lookup "fr-en" = some frEnTable ∧
    OFFLINE_DICTIONARY.lookup "en-fr" = some enFrTable := by
  have e1 : offlineLookup "fr-en" p = frEnTable.lookup p := by
    unfold offlineLookup
    rw [(by decide : OFFLINE_DICTIONARY.lookup "fr-en" = some frEnTable)]
    rfl
  have e2 : offlineLookup "en-fr" q = enFrTable.lookup q := by
    unfold offlineLookup
    rw [(by decide : OFFLINE_DICTIONARY.lookup "en-fr" = some enFrTable)]
    rfl
  refine ⟨?_, by decide, by decide⟩
  rw [e1, e2, lookup_eq_some_iff_mem frEnTable (by decide) p q,
      lookup_eq_some_iff_mem enFrTable (by decide) q p]
  have h1 : ∀ pr ∈ frEnTable, (pr.2, pr.1) ∈ enFrTable := by decide
  have h2 : ∀ pr ∈ enFrTable, (pr.2, pr.1) ∈ frEnTable := by decide
  exact ⟨fun hm => h1 (p, q) hm, fun hm => h2 (q, p) hm⟩

/-! ### Normalisation lemmas for C9 -/

theorem char_toNat_ofNat_small (n : Nat) (h : n < 55296) :
    (Char.ofNat n).toNat = n := by
  have hv : n.isValidChar := Or.inl h
  unfold Char.ofNat
  rw [dif_pos hv]
  rfl

theorem jsLowerCode_idem (n : Nat) : jsLowerCode (jsLowerCode n) = jsLowerCode n := by
  unfold jsLowerCode
  split_ifs <;> omega

theorem jsLowerCode_small (n : Nat) (h : jsLowerCode n ≠ n) : jsLowerCode n < 55296 := by
  unfold jsLowerCode at h ⊢
  split_ifs at h ⊢ <;> omega

theorem toNat_jsToLowerChar (c : Char) :
    (jsToLowerChar c).toNat = jsLowerCode c.toNat := by
  unfold jsToLowerChar
  by_cases h : jsLowerCode c.toNat = c.toNat
  · rw [if_pos h, h]
  · rw [if_neg h]
    exact char_toNat_ofNat_small _ (jsLowerCode_small _ h)

theorem jsToLowerChar_idem (c : Char) :
    jsToLowerChar (jsToLowerChar c) = jsToLowerChar c := by
  have hcond : jsLowerCode (jsToLowerChar c).toNat = (jsToLowerChar c).toNat := by
    rw [toNat_jsToLowerChar, jsLowerCode_idem]
  calc jsToLowerChar (jsToLowerChar c)
      = if jsLowerCode (jsToLowerChar c).toNat = (jsToLowerChar c).toNat
        then jsToLowerChar c
        else Char.ofNat (jsLowerCode (jsToLowerChar c).toNat) := rfl
    _ = jsToLowerChar c := if_pos hcond

theorem isWsCode_jsLowerCode (n : Nat) : isWsCode (jsLowerCode n) = isWsCode n := by
  unfold isWsCode jsLowerCode
  split_ifs
  all_goals first
  | rfl
  | (rw [decide_eq_decide]; omega)

theorem isJsWhitespace_jsToLowerChar (c : Char) :
    isJsWhitespace (jsToLowerChar c) = isJsWhitespace c := by
  unfold isJsWhitespace
  rw [toNat_jsToLowerChar, isWsCode_jsLowerCode]

theorem string_data_append (a b : String) : (a ++ b).data = a.data ++ b.data := by
  cases a
  cases b
  rfl

/-- The pair string handed to line 103 always contains a `-`, and no
`Object.prototype` member name does, so the outer dictionary access
never lands on an inherited member. -/
theorem pair_not_proto_mem (a b : String) :
    (a ++ "-" ++ b) ∉ objectProtoMembers := by
  intro hmem
  have hno : ∀ s ∈ objectProtoMembers, '-' ∉ s.data := by decide
  have hdash : '-' ∈ (a ++ "-" ++ b).data := by
    rw [string_data_append, string_data_append]
    exact List.mem_append_left _ (List.mem_append_right _ (by decide))
  exact hno _ hmem hdash

theorem dropWhile_self_idem {α : Type} (p : α → Bool) (l : List α) :
    (l.dropWhile p).dropWhile p = l.dropWhile p := by
  induction l with
  | nil => rfl
  | cons c t ih =>
    by_cases h : p c = true
    · simp [List.dropWhile_cons, h, ih]
    · simp [List.dropWhile_cons, h]

theorem head_dropWhile_not {α : Type} (p : α → Bool) (l : List α) (a : α)
    (h : (l.dropWhile p).head? = some a) : p a = false := by
  induction l with
  | nil => simp [List.dropWhile] at h
  | cons c t ih =>
    by_cases hc : p c = true
    · rw [List.dropWhile_cons, if_pos hc] at h
      exact ih h
    · rw [List.dropWhile_cons, if_neg hc] at h
      cases h
      simpa using hc

theorem dropWhile_of_head_not {α : Type} (p : α → Bool) (l : List α)
    (h : ∀ a, l.head? = some a → p a = false) : l.dropWhile p = l := by
  cases l with
  | nil => rfl
  | cons c t => rw [List.dropWhile_cons, if_neg (by simp [h c rfl])]

theorem trimList_idem (l : List Char) :
    trimList (trimList l) = trimList l := by
  classical
  set p := isJsWhitespace with hp
  set u := l.dropWhile p with hu
  set v := u.reverse.dropWhile p with hv
  have htriml : trimList l = v.reverse := rfl
  obtain ⟨s, hs⟩ : ∃ s, s ++ v = u.reverse := List.dropWhile_suffix p
  have hu_eq : u = v.reverse ++ s.reverse := by
    have := congrArg List.reverse hs
    simpa [List.reverse_append] using this.symm
  have hhead : ∀ a, v.reverse.head? = some a → p a = false := by
    intro a ha
    apply head_dropWhile_not p l a
    rw [← hu]
    cases hv2 : v.reverse with
    | nil => rw [hv2] at ha; simp at ha
    | cons x xs =>
      rw [hv2] at ha
      simp only [List.head?_cons, Option.some.injEq] at ha
      rw [hu_eq, hv2]
      simp [ha]
  have h1 : v.reverse.dropWhile p = v.reverse := dropWhile_of_head_not p _ hhead
  have h2 : v.dropWhile p = v := by
    apply dropWhile_of_head_not
    intro a ha
    exact head_dropWhile_not p u.reverse a (by rw [← hv]; exact ha)
  rw [htriml]
  show ((v.reverse.dropWhile p).reverse.dropWhile p).reverse = v.reverse
  rw [h1, List.reverse_reverse, h2]

theorem trimList_map_lower (l : List Char) :
    trimList (l.map jsToLowerChar) = (trimList l).map jsToLowerChar := by
  have hcomp : (isJsWhitespace ∘ jsToLowerChar) = isJsWhitespace :=
    funext isJsWhitespace_jsToLowerChar
  unfold trimList
  rw [List.dropWhile_map, ← List.map_reverse, List.dropWhile_map, ← List.map_reverse,
      hcomp]

theorem map_lower_idem (l : List Char) :
    (l.map jsToLowerChar).map jsToLowerChar = l.map jsToLowerChar := by
  rw [List.map_map]
  exact List.map_congr_left fun a _ => jsToLowerChar_idem a

theorem normalizeText_idem (t : String) :
    normalizeText (normalizeText t) = normalizeText t := by
  unfold normalizeText jsTrim jsToLower
  rw [← trimList_map_lower, map_lower_idem, trimList_idem]

/-- C9 counterexample: with the pair `fr-en`, the input `"Hello"` misses
the dictionary, so `handleOfflineTranslate` embeds the raw text in the
fallback and produces a different translated string than it does for the
lowercased, trimmed form `"hello"`. -/
theorem c9_counterexample :
    normalizeText "Hello" = "hello" ∧
    (handleOfflineTranslate "fr" "en" 0 "Hello" []).transcriptionModel
        ≠ (handleOfflineTranslate "fr" "en" 0 (normalizeText "Hello") []).transcriptionModel := by
  decide

/-- C9 (amended): the lookup itself is insensitive to case and outer
whitespace on dictionary hits — whenever the lowercased, trimmed text is
a key of the current pair's table (with its non-empty stored value), the
raw input and its normalized form produce the same translated string,
namely that value — and the raw, unnormalized input is what is stored as
`originalText` and shown as the user transcription. -/
theorem c9_lookup_insensitive (fromCode toCode : String) (now now2 : Nat)
    (text : String) (history history2 : List TranslationRecord) (tr : String)
    (hhit : offlineIndex (fromCode ++ "-" ++ toCode) (normalizeText text)
        = JsValue.str tr)
    (hne : tr ≠ "") :
    (handleOfflineTranslate fromCode toCode now text history).transcriptionModel
        = (handleOfflineTranslate fromCode toCode now2 (normalizeText text) history2).transcriptionModel ∧
    (handleOfflineTranslate fromCode toCode now text history).transcriptionModel
        = JsValue.str tr ∧
    (handleOfflineTranslate fromCode toCode now text history).record.translatedText
        = tr ∧
    (handleOfflineTranslate fromCode toCode now text history).transcriptionUser = text ∧
    (handleOfflineTranslate fromCode toCode now text history).record.originalText = text := by
  unfold handleOfflineTranslate
  rw [normalizeText_idem]
  simp [hhit, resolveTranslated, jsTruthy, jsValueStringView, hne]

/-- C9 witness at the accented, upper-cased `" OÙ EST LA GARE ? "`: it
and its normalized form `"où est la gare ?"` both translate to
`"where is the station?"`. -/
theorem c9_lookup_insensitive_witness :
    offlineIndex ("fr" ++ "-" ++ "en") (normalizeText " OÙ EST LA GARE ? ")
        = JsValue.str "where is the station?" ∧
    ("where is the station?" : String) ≠ "" ∧
    ((handleOfflineTranslate "fr" "en" 0 " OÙ EST LA GARE ? " []).transcriptionModel
        = (handleOfflineTranslate "fr" "en" 1
            (normalizeText " OÙ EST LA GARE ? ") []).transcriptionModel ∧
     (handleOfflineTranslate "fr" "en" 0 " OÙ EST LA GARE ? " []).transcriptionModel
        = JsValue.str "where is the station?" ∧
     (handleOfflineTranslate "fr" "en" 0 " OÙ EST LA GARE ? " []).record.translatedText
        = "where is the station?" ∧
     (handleOfflineTranslate "fr" "en" 0 " OÙ EST LA GARE ? " []).transcriptionUser
        = " OÙ EST LA GARE ? " ∧
     (handleOfflineTranslate "fr" "en" 0 " OÙ EST LA GARE ? " []).record.originalText
        = " OÙ EST LA GARE ? ") :=
  ⟨by decide, by decide,
   c9_lookup_insensitive "fr" "en" 0 1 " OÙ EST LA GARE ? " [] []
     "where is the station?" (by decide) (by decide)⟩

/-! ### Playback scheduling lemmas for C3 -/

theorem scheduleChunks_head_start_ge (next : ℚ) (chunks : List (ℚ × ℚ))
    (a : ℚ × ℚ) (h : (scheduleChunks next chunks).head? = some a) :
    next ≤ a.1 := by
  cases chunks with
  | nil => simp [scheduleChunks] at h
  | cons c rest =>
    simp only [scheduleChunks, List.head?_cons, Option.some.injEq] at h
    rw [← h]
    exact le_max_left _ _

/-- C3: over any run of audio-chunk arrivals, each scheduled start time
is at least the scheduled end (start plus duration) of the previous
chunk, so chunks play in arrival order without overlap; with
non-negative durations `nextStartTime` never decreases, and
`stopAllAudio` is the only reset, setting it to 0. -/
theorem c3_playback_schedule (next : ℚ) (chunks : List (ℚ × ℚ))
    (hd : ∀ c ∈ chunks, 0 ≤ c.2) :
    List.Chain' (fun a b : ℚ × ℚ => a.1 + a.2 ≤ b.1) (scheduleChunks next chunks) ∧
    next ≤ nextStartAfter next chunks ∧
    stopAllAudio_nextStart = 0 := by
  refine ⟨?_, ?_, rfl⟩
  · clear hd
    induction chunks generalizing next with
    | nil => exact List.chain'_nil
    | cons c rest ih =>
      rw [scheduleChunks, List.chain'_cons']
      refine ⟨?_, ih _⟩
      intro b hb
      have := scheduleChunks_head_start_ge (scheduleChunk next c).2 rest b hb
      simpa [scheduleChunk] using this
  · induction chunks generalizing next with
    | nil => exact le_refl _
    | cons c rest ih =>
      have h0 : 0 ≤ c.2 := hd c (List.mem_cons_self c rest)
      have h1 : next ≤ (scheduleChunk next c).2 := by
        simp only [scheduleChunk]
        calc next ≤ max next c.1 := le_max_left _ _
          _ ≤ max next c.1 + c.2 := le_add_of_nonneg_right h0
      exact le_trans h1 (ih _ fun x hx => hd x (List.mem_cons_of_mem c hx))

/-- C3 witness at two concrete chunk arrivals. -/
theorem c3_playback_schedule_witness :
    (∀ c ∈ [((0 : ℚ), (1 : ℚ)), ((2 : ℚ), (1 : ℚ))], 0 ≤ c.2) ∧
    (List.Chain' (fun a b : ℚ × ℚ => a.1 + a.2 ≤ b.1)
        (scheduleChunks 0 [((0 : ℚ), (1 : ℚ)), ((2 : ℚ), (1 : ℚ))]) ∧
     (0 : ℚ) ≤ nextStartAfter 0 [((0 : ℚ), (1 : ℚ)), ((2 : ℚ), (1 : ℚ))] ∧
     stopAllAudio_nextStart = 0) :=
  ⟨by norm_num,
   c3_playback_schedule 0 [((0 : ℚ), (1 : ℚ)), ((2 : ℚ), (1 : ℚ))] (by norm_num)⟩

/-! ### Serialization round-trip lemmas for C6 -/

theorem parseExact_append (pat rest : List Char) :
    parseExact pat (pat ++ rest) = some rest := by
  induction pat with
  | nil => rfl
  | cons p ps ih => simp [parseExact, ih]

theorem parseExact_single (c : Char) (rest : List Char) :
    parseExact [c] (c :: rest) = some rest :=
  parseExact_append [c] rest

theorem psb_plain (c : Char) (h1 : c ≠ '"') (h2 : c ≠ '\\') (tail : List Char) :
    parseStringBody (c :: tail)
      = (parseStringBody tail).map fun p => (c :: p.1, p.2) := by
  rw [parseStringBody.eq_def]
  simp [h1, h2]

theorem psb_quote (tail : List Char) :
    parseStringBody ('\\' :: '"' :: tail)
      = (parseStringBody tail).map fun p => ('"' :: p.1, p.2) := by
  rw [parseStringBody.eq_def]
  simp

theorem psb_backslash (tail : List Char) :
    parseStringBody ('\\' :: '\\' :: tail)
      = (parseStringBody tail).map fun p => ('\\' :: p.1, p.2) := by
  rw [parseStringBody.eq_def]
  simp

theorem psb_b (tail : List Char) :
    parseStringBody ('\\' :: 'b' :: tail)
      = (parseStringBody tail).map fun p => (Char.ofNat 8 :: p.1, p.2) := by
  rw [parseStringBody.eq_def]
  simp

theorem psb_t (tail : List Char) :
    parseStringBody ('\\' :: 't' :: tail)
      = (parseStringBody tail).map fun p => (Char.ofNat 9 :: p.1, p.2) := by
  rw [parseStringBody.eq_def]
  simp

theorem psb_n (tail : List Char) :
    parseStringBody ('\\' :: 'n' :: tail)
      = (parseStringBody tail).map fun p => (Char.ofNat 10 :: p.1, p.2) := by
  rw [parseStringBody.eq_def]
  simp

theorem psb_f (tail : List Char) :
    parseStringBody ('\\' :: 'f' :: tail)
      = (parseStringBody tail).map fun p => (Char.ofNat 12 :: p.1, p.2) := by
  rw [parseStringBody.eq_def]
  simp

theorem psb_r (tail : List Char) :
    parseStringBody ('\\' :: 'r' :: tail)
      = (parseStringBody tail).map fun p => (Char.ofNat 13 :: p.1, p.2) := by
  rw [parseStringBody.eq_def]
  simp

theorem psb_u (h1 h2 : Char) (v1 v2 : Nat) (hv1 : hexVal h1 = some v1)
    (hv2 : hexVal h2 = some v2) (tail : List Char) :
    parseStringBody ('\\' :: 'u' :: '0' :: '0' :: h1 :: h2 :: tail)
      = (parseStringBody tail).map fun p => (Char.ofNat (v1 * 16 + v2) :: p.1, p.2) := by
  rw [parseStringBody.eq_def]
  have h0 : hexVal '0' = some 0 := by decide
  simp [h0, hv1, hv2]

theorem hexVal_hexDigit (v : Nat) (h : v < 16) :
    hexVal (hexDigit v) = some v := by
  have hall : ∀ m, m < 16 → hexVal (hexDigit m) = some m := by decide
  exact hall v h

theorem psb_escape (c : Char) (tail : List Char) :
    parseStringBody (escapeChar c ++ tail)
      = (parseStringBody tail).map fun p => (c :: p.1, p.2) := by
  unfold escapeChar
  split_ifs with h1 h2 h3 h4 h5 h6 h7 h8
  · subst h1; exact psb_quote tail
  · subst h2; exact psb_backslash tail
  · rw [show (['\\', 'b'] : List Char) ++ tail = '\\' :: 'b' :: tail from rfl,
        psb_b, ← h3, Char.ofNat_toNat]
  · rw [show (['\\', 't'] : List Char) ++ tail = '\\' :: 't' :: tail from rfl,
        psb_t, ← h4, Char.ofNat_toNat]
  · rw [show (['\\', 'n'] : List Char) ++ tail = '\\' :: 'n' :: tail from rfl,
        psb_n, ← h5, Char.ofNat_toNat]
  · rw [show (['\\', 'f'] : List Char) ++ tail = '\\' :: 'f' :: tail from rfl,
        psb_f, ← h6, Char.ofNat_toNat]
  · rw [show (['\\', 'r'] : List Char) ++ tail = '\\' :: 'r' :: tail from rfl,
        psb_r, ← h7, Char.ofNat_toNat]
  · rw [show ('\\' :: 'u' :: '0' :: '0' :: hexDigit (c.toNat / 16)
          :: hexDigit (c.toNat % 16) :: ([] : List Char)) ++ tail
          = '\\' :: 'u' :: '0' :: '0' :: hexDigit (c.toNat / 16)
          :: hexDigit (c.toNat % 16) :: tail from rfl,
        psb_u _ _ (c.toNat / 16) (c.toNat % 16)
          (hexVal_hexDigit _ (by omega))
          (hexVal_hexDigit _ (Nat.mod_lt _ (by omega))) tail]
    rw [show c.toNat / 16 * 16 + c.toNat % 16 = c.toNat from by omega,
        Char.ofNat_toNat]
  · rw [show ([c] : List Char) ++ tail = c :: tail from rfl]
    exact psb_plain c h1 h2 tail

theorem parseStringBody_enc (l rest : List Char) :
    parseStringBody (encStringChars l ++ '"' :: rest) = some (l, rest) := by
  induction l with
  | nil =>
    rw [show encStringChars [] = [] from rfl, List.nil_append, parseStringBody.eq_def]
    simp
  | cons c cs ih =>
    rw [show encStringChars (c :: cs) = escapeChar c ++ encStringChars cs from by
          simp [encStringChars],
        List.append_assoc, psb_escape, ih]
    rfl

theorem string_mk_data (s : String) : String.mk s.data = s := rfl

theorem parseString_enc (s : String) (rest : List Char) :
    parseString (encString s ++ rest) = some (s, rest) := by
  rw [show encString s ++ rest = '"' :: (encStringChars s.data ++ '"' :: rest) from by
        simp [encString]]
  rw [parseString.eq_def]
  simp [parseStringBody_enc, string_mk_data]

theorem decDigit_toNat (n : Nat) (h : n < 10) : (decDigit n).toNat = 48 + n := by
  have hall : ∀ m, m < 10 → (decDigit m).toNat = 48 + m := by decide
  exact hall n h

theorem decDigit_isDigit (n : Nat) (h : n < 10) : (decDigit n).isDigit = true := by
  have hall : ∀ m, m < 10 → (decDigit m).isDigit = true := by decide
  exact hall n h

theorem natToCharsAux_ne_nil (fuel n : Nat) (hf : 0 < fuel) :
    natToCharsAux fuel n ≠ [] := by
  cases fuel with
  | zero => omega
  | succ f =>
    by_cases h : n < 10 <;> simp [natToCharsAux, h]

theorem natToCharsAux_digits (fuel : Nat) : ∀ (n : Nat),
    ∀ c ∈ natToCharsAux fuel n, c.isDigit = true := by
  induction fuel with
  | zero => intro n c hc; simp [natToCharsAux] at hc
  | succ f ih =>
    intro n c hc
    by_cases h : n < 10
    · simp only [natToCharsAux, if_pos h, List.mem_singleton] at hc
      subst hc
      exact decDigit_isDigit n h
    · simp only [natToCharsAux, if_neg h, List.mem_append, List.mem_singleton] at hc
      rcases hc with hc | hc
      · exact ih _ c hc
      · subst hc
        exact decDigit_isDigit _ (Nat.mod_lt _ (by omega))

theorem natToCharsAux_foldl (fuel : Nat) : ∀ (n acc : Nat), n < 10 ^ fuel →
    List.foldl (fun a c => a * 10 + (c.toNat - 48)) acc (natToCharsAux fuel n)
      = acc * 10 ^ (natToCharsAux fuel n).length + n := by
  induction fuel with
  | zero =>
    intro n acc h
    simp only [pow_zero, Nat.lt_one_iff] at h
    subst h
    simp [natToCharsAux]
  | succ f ih =>
    intro n acc h
    by_cases hn : n < 10
    · simp only [natToCharsAux, if_pos hn, List.foldl_cons, List.foldl_nil,
        List.length_singleton, pow_one]
      rw [decDigit_toNat n hn]
      omega
    · have h10 : n / 10 < 10 ^ f := by
        rw [Nat.div_lt_iff_lt_mul (by omega)]
        calc n < 10 ^ (f + 1) := h
          _ = 10 ^ f * 10 := pow_succ 10 f
      simp only [natToCharsAux, if_neg hn, List.foldl_append, List.foldl_cons,
        List.foldl_nil, List.length_append, List.length_singleton]
      rw [ih (n / 10) acc h10, decDigit_toNat _ (Nat.mod_lt _ (by omega)), pow_succ,
        ← mul_assoc]
      have hdm := Nat.div_add_mod n 10
      set L := (natToCharsAux f (n / 10)).length
      set M := acc * 10 ^ L
      omega

theorem charsToNat_natToChars (n : Nat) : charsToNat (natToChars n) = n := by
  have hb : n < 10 ^ (n + 1) := by
    calc n < 10 ^ n := Nat.lt_pow_self (by omega) n
      _ ≤ 10 ^ (n + 1) := Nat.pow_le_pow_right (by omega) (Nat.le_succ n)
  unfold charsToNat natToChars
  rw [natToCharsAux_foldl (n + 1) n 0 hb]
  simp

theorem takeWhile_dropWhile_append {α : Type} (p : α → Bool) (l rest : List α)
    (hl : ∀ c ∈ l, p c = true)
    (hr : ∀ c, rest.head? = some c → p c = false) :
    (l ++ rest).takeWhile p = l ∧ (l ++ rest).dropWhile p = rest := by
  induction l with
  | nil =>
    simp only [List.nil_append]
    cases rest with
    | nil => exact ⟨rfl, rfl⟩
    | cons c t =>
      have hc := hr c rfl
      constructor
      · rw [List.takeWhile_cons, if_neg (by simp [hc])]
      · rw [List.dropWhile_cons, if_neg (by simp [hc])]
  | cons x xs ih =>
    have hx : p x = true := hl x (List.mem_cons_self x xs)
    obtain ⟨h1, h2⟩ := ih fun c hc => hl c (List.mem_cons_of_mem x hc)
    constructor
    · rw [List.cons_append, List.takeWhile_cons, if_pos hx, h1]
    · rw [List.cons_append, List.dropWhile_cons, if_pos hx, h2]

theorem parseNatChars_append (n : Nat) (rest : List Char)
    (hr : ∀ c, rest.head? = some c → c.isDigit = false) :
    parseNatChars (natToChars n ++ rest) = some (n, rest) := by
  obtain ⟨h1, h2⟩ := takeWhile_dropWhile_append Char.isDigit (natToChars n) rest
    (natToCharsAux_digits (n + 1) n) hr
  unfold parseNatChars
  rw [h1, h2, if_neg (by simp [List.isEmpty_iff, natToChars, natToCharsAux_ne_nil]),
    charsToNat_natToChars]

theorem parseField_enc (key : String) (val rest : List Char) :
    parseField key (encField key val ++ rest) = some (val ++ rest) := by
  unfold parseField encField
  rw [show (encString key ++ ':' :: val) ++ rest
        = (encString key ++ [':']) ++ (val ++ rest) from by simp]
  exact parseExact_append _ _

theorem parseMemberStr_enc (key v : String) (rest : List Char) :
    parseMemberStr key (encField key (encString v) ++ rest) = some (v, rest) := by
  unfold parseMemberStr
  rw [parseField_enc key (encString v) rest]
  simp [parseString_enc]

theorem parseCommaMemberStr_enc (key v : String) (rest : List Char) :
    parseCommaMemberStr key (',' :: (encField key (encString v) ++ rest))
      = some (v, rest) := by
  unfold parseCommaMemberStr
  rw [parseExact_single, Option.some_bind, parseMemberStr_enc]

theorem parseCommaMemberNum_enc (key : String) (n : Nat) (rest : List Char)
    (hr : ∀ c, rest.head? = some c → c.isDigit = false) :
    parseCommaMemberNum key (',' :: (encField key (natToChars n) ++ rest))
      = some (n, rest) := by
  unfold parseCommaMemberNum
  rw [parseExact_single, Option.some_bind, parseField_enc key (natToChars n) rest,
    Option.some_bind]
  exact parseNatChars_append n rest hr

theorem parseRecord_enc (r : TranslationRecord) (rest : List Char) :
    parseRecord (encRecord r ++ rest) = some (r, rest) := by
  have hshape : encRecord r ++ rest
      = lbrace :: (encField "id" (encString r.id)
        ++ ',' :: (encField "originalText" (encString r.originalText)
        ++ ',' :: (encField "translatedText" (encString r.translatedText)
        ++ ',' :: (encField "fromLang" (encString r.fromLang)
        ++ ',' :: (encField "toLang" (encString r.toLang)
        ++ ',' :: (encField "timestamp" (natToChars r.timestamp)
        ++ rbrace :: rest)))))) := by
    simp [encRecord]
  have hrb : ∀ c, (rbrace :: rest).head? = some c → c.isDigit = false := by
    intro c hc
    simp only [List.head?_cons, Option.some.injEq] at hc
    subst hc
    decide
  unfold parseRecord
  rw [hshape, parseExact_single, Option.some_bind, parseMemberStr_enc,
    Option.some_bind, parseCommaMemberStr_enc, Option.some_bind,
    parseCommaMemberStr_enc, Option.some_bind, parseCommaMemberStr_enc,
    Option.some_bind, parseCommaMemberStr_enc, Option.some_bind,
    parseCommaMemberNum_enc "timestamp" r.timestamp (rbrace :: rest) hrb,
    Option.some_bind, parseExact_single, Option.some_bind]

theorem parseRecordsAux_step (f : Nat) (r : TranslationRecord) (T : List Char) :
    parseRecordsAux (f + 1) (encRecord r ++ ',' :: T)
      = (parseRecordsAux f T).map fun q => (r :: q.1, q.2) := by
  simp only [parseRecordsAux]
  rw [parseRecord_enc r _, Option.some_bind]
  simp

theorem parseRecordsAux_enc (rs : List TranslationRecord) : ∀ (fuel : Nat),
    rs ≠ [] → rs.length ≤ fuel →
    parseRecordsAux fuel (joinComma (rs.map encRecord) ++ [']']) = some (rs, []) := by
  induction rs with
  | nil => intro fuel hne _; exact absurd rfl hne
  | cons r rs2 ih =>
    intro fuel _ hlen
    cases fuel with
    | zero => simp at hlen
    | succ f =>
      cases rs2 with
      | nil =>
        rw [show joinComma ([r].map encRecord) ++ [']'] = encRecord r ++ [']'] from by
              simp [joinComma]]
        simp only [parseRecordsAux]
        rw [parseRecord_enc r [']'], Option.some_bind]
        simp
      | cons r3 rs3 =>
        rw [show joinComma ((r :: r3 :: rs3).map encRecord) ++ [']']
              = encRecord r ++ ',' :: (joinComma ((r3 :: rs3).map encRecord) ++ [']'])
            from by simp [joinComma]]
        have hlen2 : (r3 :: rs3).length ≤ f := by
          simp only [List.length_cons] at hlen ⊢
          omega
        rw [parseRecordsAux_step f r _, ih f (by simp) hlen2]
        rfl

theorem joinComma_length (rs : List TranslationRecord) :
    rs.length ≤ (joinComma (rs.map encRecord)).length + 1 := by
  induction rs with
  | nil => simp [joinComma]
  | cons r rs2 ih =>
    cases rs2 with
    | nil => simp [joinComma]
    | cons r3 rs3 =>
      rw [show joinComma ((r :: r3 :: rs3).map encRecord)
            = encRecord r ++ ',' :: joinComma ((r3 :: rs3).map encRecord)
          from by simp [joinComma]]
      simp only [List.length_cons, List.length_append] at ih ⊢
      omega

theorem parseHistory_enc (rs : List TranslationRecord) :
    parseHistory (encHistory rs) = some rs := by
  cases rs with
  | nil => decide
  | cons r rs2 =>
    have hhead : ∃ Y, joinComma ((r :: rs2).map encRecord) = lbrace :: Y := by
      cases rs2 with
      | nil => exact ⟨_, rfl⟩
      | cons r3 rs3 => exact ⟨_, rfl⟩
    obtain ⟨Y, hY⟩ := hhead
    rw [show encHistory (r :: rs2) = '[' :: (lbrace :: (Y ++ [']'])) from by
          rw [encHistory, hY, List.cons_append, List.cons_append]]
    rw [parseHistory.eq_def]
    simp only [List.cons.injEq, reduceIte]
    rw [if_neg (by decide : ¬(lbrace = ']'))]
    rw [show (lbrace :: (Y ++ [']'])) = joinComma ((r :: rs2).map encRecord) ++ [']']
        from by rw [hY, List.cons_append]]
    have hfuel : (r :: rs2).length
        ≤ (joinComma ((r :: rs2).map encRecord) ++ [']']).length := by
      have h1 := joinComma_length (r :: rs2)
      simp only [List.length_append, List.length_singleton]
      omega
    rw [parseRecordsAux_enc (r :: rs2) _ (by simp) hfuel]

/-- C6: the persist effect stores the serialized history under the key
`lingoflow_history`, the serialization parses back to exactly the same
list (round-trip), and the startup load effect therefore restores the
persisted history. -/
theorem c6_history_persistence (st : Store) (h : List TranslationRecord) :
    getItem (persistHistory st h) historyKey = some (String.mk (encHistory h)) ∧
    parseHistory (encHistory h) = some h ∧
    loadHistory (persistHistory st h) = some h := by
  have hget : getItem (persistHistory st h) historyKey
      = some (String.mk (encHistory h)) := by
    unfold getItem persistHistory setItem
    rw [if_pos rfl]
  have hne : String.mk (encHistory h) ≠ "" := by
    intro hmk
    have hdata := congrArg String.data hmk
    simp [encHistory] at hdata
  refine ⟨hget, parseHistory_enc h, ?_⟩
  unfold loadHistory
  rw [hget]
  show (if String.mk (encHistory h) = "" then none
        else parseHistory (String.mk (encHistory h)).data) = some h
  rw [if_neg hne]
  exact parseHistory_enc h

end LingoFlow
